import Mathlib

/-!
Shallow embedding of the ESDoc documentation-generation pipeline
(`src/ESDoc.js`) together with proofs about it.

Modelling conventions:
* JS strings are Lean `String`; JS string comparison `a < b` is the
  lexicographic `String` order.
* A possibly-`undefined` JS value is an `Option`; JS truthiness of a
  string-valued config field is `jsTruthyStr` (`undefined` and `''` are
  falsy), of an array-valued field `jsTruthyList` (every array is truthy).
* The external collaborators (file system, `path`, `ESParser`,
  `DocFactory`, regular expressions, `JSON.parse`) are a record `Env` of
  abstract functions; side effects that matter to the specification
  (file reads, parses, writes, diagnostics) are recorded in an explicit
  event trace.
-/

namespace ESDoc

/-- JS truthiness of a possibly-absent string field: `undefined` and `''` are falsy. -/
def jsTruthyStr : Option String → Bool
  | none => false
  | some s => s != ""

/-- JS truthiness of a possibly-absent array field: every array is truthy. -/
def jsTruthyList : Option (List String) → Bool :=
  Option.isSome

/-- The `__docId__` of a doc object. Synthetic docs carry no id (JS `undefined`),
hence the `Option`. -/
abbrev DocId := Option String

/-- One documentation entry (`DocObject`).  The fields are the ones the
pipeline in `ESDoc.js` reads or writes: `kind`, `longname`, `name`,
`static`, `access`, `content` and the internal `__docId__`. -/
structure DocObject where
  kind : String
  longname : String
  name : String := ""
  static : Bool := true
  access : String := "public"
  content : String := ""
  __docId__ : DocId := none
  deriving DecidableEq, Repr

/-- Lexicographic comparison of character lists, the model of JS `<` on
strings (code-unit lexicographic comparison). -/
def charListLt : List Char → List Char → Bool
  | [], [] => false
  | [], _ :: _ => true
  | _ :: _, [] => false
  | a :: as, b :: bs => if a < b then true else if b < a then false else charListLt as bs

/-- JS `a < b` on strings. -/
def jsStrLt (a b : String) : Bool := charListLt a.data b.data

/-- JS `<` applied to `__docId__` values: a comparison involving
`undefined` is false. -/
def idLt : DocId → DocId → Bool
  | some a, some b => jsStrLt a b
  | _, _ => false

/-- Insertion step for the model of `ids.sort((a, b) => a < b ? -1 : 1)`
(line 246 of `ESDoc.js`): insert one id into an already-sorted list,
placing `a` in front of the first element it compares below. -/
def insertId (a : DocId) : List DocId → List DocId
  | [] => [a]
  | b :: bs => if idLt a b then a :: b :: bs else b :: insertId a bs

/-- Model of `ids.sort((a, b) => a < b ? -1 : 1)` (line 246): ascending
insertion sort by the string comparator. -/
def sortIds : List DocId → List DocId
  | [] => []
  | a :: as => insertId a (sortIds as)

/-- Line 237 of `ESDoc.js`:
`docs.find((doc) => doc.longname === memberDoc.longname && doc.kind !== 'member')`
is some doc, i.e. a non-member doc shares the longname. -/
def hasNonMemberAt (docs : List DocObject) (ln : String) : Bool :=
  (docs.find? (fun doc => doc.longname == ln && doc.kind != "member")).isSome

/-- Line 243 of `ESDoc.js`:
`docs.filter((doc) => doc.longname === memberDoc.longname && doc.kind === 'member')`. -/
def membersAt (docs : List DocObject) (ln : String) : List DocObject :=
  docs.filter (fun doc => doc.longname == ln && doc.kind == "member")

/-- Lines 233-252 of `ESDoc.js`: the ids pushed onto `removeIds` while
processing one `memberDoc`.  If a non-member doc shares the longname the
member's own id is pushed (lines 237-241); otherwise, if more than one
member shares the longname, all ids of that group except the lexically
smallest are pushed (lines 243-251: `sort` then `shift`). -/
def removeIdsFor (docs : List DocObject) (memberDoc : DocObject) : List DocId :=
  if hasNonMemberAt docs memberDoc.longname then [memberDoc.__docId__]
  else if (membersAt docs memberDoc.longname).length > 1 then
    (sortIds ((membersAt docs memberDoc.longname).map (fun v => v.__docId__))).drop 1
  else []

/-- Lines 230-252 of `ESDoc.js`: the full `removeIds` array, accumulated
over `memberDocs = docs.filter((doc) => doc.kind === 'member')`. -/
def removeIds (docs : List DocObject) : List DocId :=
  (docs.filter (fun doc => doc.kind == "member")).foldl
    (fun acc memberDoc => acc ++ removeIdsFor docs memberDoc) []

/-- Lines 229-255 of `ESDoc.js`, `_resolveDuplication`: drop every doc
whose `__docId__` occurs in `removeIds` (line 254:
`docs.filter((doc) => !removeIds.includes(doc.__docId__))`). -/
def _resolveDuplication (docs : List DocObject) : List DocObject :=
  docs.filter (fun doc => !((removeIds docs).contains doc.__docId__))

/-! ### Configuration and its normalization -/

/-- The configuration record (`ESDocConfig`).  String-valued fields are
`Option String` (JS `undefined` is `none`), the pattern lists are
`Option (List String)`. -/
structure Config where
  source : Option String := none
  destination : Option String := none
  includes : Option (List String) := none
  excludes : Option (List String) := none
  index : Option String := none
  package : Option String := none
  debug : Bool := false
  deriving DecidableEq, Repr

/-- Lines 121-129 of `ESDoc.js`, `_setDefaultConfig`: fill each of
`includes`, `excludes`, `index`, `package` with its documented default
when the present value is JS-falsy.  The four in-place assignments of the
source are independent (each tests and sets its own field), so they are
rendered as one record update. -/
def _setDefaultConfig (config : Config) : Config :=
  { config with
    includes := if jsTruthyList config.includes then config.includes
      else some ["\\.(js|es6)$"]
    excludes := if jsTruthyList config.excludes then config.excludes
      else some ["\\.config\\.(js|es6)$"]
    index := if jsTruthyStr config.index then config.index else some "./README.md"
    package := if jsTruthyStr config.package then config.package
      else some "./package.json" }

/-! ### The pipeline over an abstract environment -/

/-- Syntax trees are opaque to the pipeline; an abstract token. -/
abbrev AST := Nat

/-- An AST node (with its parent context), opaque to the pipeline. -/
abbrev Node := Nat

/-- The observable side effects of a run: file-system accesses
(`fs.readFileSync`, `fs.readdirSync` of the walk, parser reads,
`fs.outputFileSync`) and the diagnostics of `InvalidCodeLogger`. -/
inductive Event where
  | readFile (path : String)
  | walkDir (path : String)
  | parseFile (path : String)
  | logInvalidFile (path : String)
  | logInvalidCode (path : String) (node : Node)
  | logError
  | writeFile (path : String)
  deriving DecidableEq, Repr

abbrev Trace := List Event

/-- The external collaborators of `ESDoc.js`: `path` (`resolve1` is the
one-argument `path.resolve`, `resolve2` the two-argument form, `relative`
is `path.relative`, `basename`, `pathSep` = `path.sep`), the file system
(`readFile` = `fs.readFileSync`, which either yields the text or throws;
`walkFiles` = the plain files enumerated by the recursive `_walk` under a
directory), the parser (`parse` = `ESParser.parse`), the tree walker
(`nodesOf` = the nodes `ASTUtil.traverse` visits, in order), the doc
factory (`push` = `DocFactory#push`, taking and returning the accumulated
`factory.results`), regular expressions (`regexMatch pattern s` = the
truthiness of `s.match(new RegExp(pattern))`), and `JSON.parse` projected
to the `name`/`main` fields (`jsonNameMain`). -/
structure Env where
  resolve1 : String → String
  resolve2 : String → String → String
  relative : String → String → String
  basename : String → String
  pathSep : String
  readFile : String → Except String String
  walkFiles : String → List String
  parse : String → Except String AST
  nodesOf : AST → List Node
  push : String → Node → List DocObject → Except String (List DocObject)
  regexMatch : String → String → Bool
  jsonNameMain : String → Except String (Option String × Option String)

/-- The combined effect of the loaded plugins, one field per hook that has
an observable input/output.  `onPublish` is the effect of handing the
`write`/`copy`/`read` primitives to the plugins: it either raises or
performs a list of writes of destination-relative paths. -/
structure Plugins where
  onHandleConfig : Config → Config := id
  onHandleDocs : List DocObject → List DocObject := id
  onHandleContent : String → String → String := fun content _ => content
  onPublish : Except String (List String) := Except.ok []

/-- Lines 181-188 of `ESDoc.js`: `ASTUtil.traverse` offers each node to
`factory.push`; on a throw the node and file are logged
(`InvalidCodeLogger.show(filePath, node)`) and the error is re-thrown. -/
def pushNodes (env : Env) (filePath : String) :
    List Node → List DocObject → Except String (List DocObject) × Trace
  | [], acc => (Except.ok acc, [])
  | n :: rest, acc =>
    match env.push filePath n acc with
    | Except.error e => (Except.error e, [Event.logInvalidCode filePath n])
    | Except.ok acc2 => pushNodes env filePath rest acc2

/-- The `{results, ast}` record returned by `_traverse`. -/
structure TraverseResult where
  results : List DocObject
  ast : AST
  deriving DecidableEq, Repr

/-- Lines 168-191 of `ESDoc.js`, `_traverse`: parse the file (on a parse
throw, log with `InvalidCodeLogger.showFile` and return `null`), then walk
the tree pushing each node into the factory (a throw there propagates),
and return `{results, ast}`. -/
def _traverse (env : Env) (inDirPath filePath : String)
    (packageName mainFilePath : Option String) :
    Except String (Option TraverseResult) × Trace :=
  match env.parse filePath with
  | Except.error _ =>
    (Except.ok none, [Event.parseFile filePath, Event.logInvalidFile filePath])
  | Except.ok ast =>
    match pushNodes env filePath (env.nodesOf ast) [] with
    | (Except.error e, tr) => (Except.error e, Event.parseFile filePath :: tr)
    | (Except.ok docs, tr) =>
      (Except.ok (some { results := docs, ast := ast }), Event.parseFile filePath :: tr)

/-- Lines 62-68 of `ESDoc.js`: the `for`-loop over the compiled `includes`
with `break` on the first match. -/
def includeMatchLoop (env : Env) (relativeFilePath : String) : List String → Bool
  | [] => false
  | reg :: rest =>
    if env.regexMatch reg relativeFilePath then true
    else includeMatchLoop env relativeFilePath rest

/-- Lines 71-73 of `ESDoc.js`: the `for`-loop over the compiled `excludes`
that returns from the callback on the first match. -/
def excludeMatchLoop (env : Env) (relativeFilePath : String) : List String → Bool
  | [] => false
  | reg :: rest =>
    if env.regexMatch reg relativeFilePath then true
    else excludeMatchLoop env relativeFilePath rest

/-- Lines 60-81 of `ESDoc.js`: the body of the `_walk` callback for one
discovered file.  Compute the path relative to the resolved source root,
return early unless some include pattern matches, return early if some
exclude pattern matches, otherwise run `_traverse`; a `null` result
contributes nothing, otherwise the docs and the `source`-prefixed AST
entry are contributed. -/
def processFile (env : Env) (includes excludes : List String)
    (sourceDirPath inDirPath : String) (packageName mainFilePath : Option String)
    (filePath : String) :
    Except String (Option (List DocObject × (String × AST))) × Trace :=
  let relativeFilePath := env.relative sourceDirPath filePath
  if !(includeMatchLoop env relativeFilePath includes) then (Except.ok none, [])
  else if excludeMatchLoop env relativeFilePath excludes then (Except.ok none, [])
  else
    match _traverse env inDirPath filePath packageName mainFilePath with
    | (Except.error e, tr) => (Except.error e, tr)
    | (Except.ok none, tr) => (Except.ok none, tr)
    | (Except.ok (some t), tr) =>
      (Except.ok (some (t.results, ("source" ++ env.pathSep ++ relativeFilePath, t.ast))), tr)

/-- The walk over all discovered files (the `_walk(config.source, cb)` call
of lines 60-81), accumulating `results` and `asts`; an error thrown inside
the callback unwinds the whole walk, so the remaining files are not
visited. -/
def walkFold (env : Env) (includes excludes : List String)
    (sourceDirPath inDirPath : String) (packageName mainFilePath : Option String) :
    List String → List DocObject → List (String × AST) →
      Except String (List DocObject × List (String × AST)) × Trace
  | [], results, asts => (Except.ok (results, asts), [])
  | filePath :: rest, results, asts =>
    match processFile env includes excludes sourceDirPath inDirPath packageName mainFilePath
        filePath with
    | (Except.error e, tr) => (Except.error e, tr)
    | (Except.ok none, tr) =>
      let r := walkFold env includes excludes sourceDirPath inDirPath packageName mainFilePath
        rest results asts
      (r.1, tr ++ r.2)
    | (Except.ok (some contrib), tr) =>
      let r := walkFold env includes excludes sourceDirPath inDirPath packageName mainFilePath
        rest (results ++ contrib.1) (asts ++ [contrib.2])
      (r.1, tr ++ r.2)

/-- Lines 193-205 of `ESDoc.js`, `_generateForIndex`: read the configured
index document (`fs.readFileSync` with **no** try/catch, so a read failure
propagates) and wrap it as the synthetic index doc. -/
def _generateForIndex (env : Env) (config : Config) : Except String DocObject × Trace :=
  match env.readFile (config.index.getD "") with
  | Except.error e => (Except.error e, [Event.readFile (config.index.getD "")])
  | Except.ok indexContent =>
    (Except.ok
      { kind := "index", content := indexContent,
        longname := env.resolve1 (config.index.getD ""),
        name := config.index.getD "",
        static := true, access := "public", __docId__ := none },
     [Event.readFile (config.index.getD "")])

/-- The synthetic index doc `_generateForIndex` builds from content `s`
(used to state facts about `_generateForIndex` and `indexStage`). -/
def indexDocObject (env : Env) (config : Config) (s : String) : DocObject :=
  { kind := "index", content := s, longname := env.resolve1 (config.index.getD ""),
    name := config.index.getD "", static := true, access := "public", __docId__ := none }

/-- Lines 207-227 of `ESDoc.js`, `_generateForPackageJSON`: read the
manifest inside try/catch (failure leaves empty content and an empty
`packagePath`) and wrap it as the synthetic package doc. -/
def _generateForPackageJSON (env : Env) (config : Config) : DocObject × Trace :=
  match env.readFile (config.package.getD "") with
  | Except.error _ =>
    ({ kind := "packageJSON", content := "", longname := "",
       name := env.basename "", static := true, access := "public", __docId__ := none },
     [Event.readFile (config.package.getD "")])
  | Except.ok txt =>
    ({ kind := "packageJSON", content := txt,
       longname := env.resolve1 (config.package.getD ""),
       name := env.basename (env.resolve1 (config.package.getD "")),
       static := true, access := "public", __docId__ := none },
     [Event.readFile (config.package.getD "")])

/-- Lines 43-54 of `ESDoc.js`: when `config.package` is truthy, read and
JSON-parse it for `packageName` and `mainFilePath`; any throw is ignored
and both stay `null`. -/
def packageInfoStage (env : Env) (config : Config) : (Option String × Option String) × Trace :=
  if jsTruthyStr config.package then
    match env.readFile (config.package.getD "") with
    | Except.error _ => ((none, none), [Event.readFile (config.package.getD "")])
    | Except.ok txt =>
      match env.jsonNameMain txt with
      | Except.error _ => ((none, none), [Event.readFile (config.package.getD "")])
      | Except.ok nm => (nm, [Event.readFile (config.package.getD "")])
  else ((none, none), [])

/-- Lines 84-86 of `ESDoc.js`: when `config.index` is truthy, push the
synthetic index doc; an error from `_generateForIndex` propagates. -/
def indexStage (env : Env) (config : Config) (results : List DocObject) :
    Except String (List DocObject) × Trace :=
  if jsTruthyStr config.index then
    match _generateForIndex env config with
    | (Except.error e, tr) => (Except.error e, tr)
    | (Except.ok doc, tr) => (Except.ok (results ++ [doc]), tr)
  else (Except.ok results, [])

/-- Lines 89-91 of `ESDoc.js`: when `config.package` is truthy, push the
synthetic package doc (its read failure is caught inside). -/
def packageDocStage (env : Env) (config : Config) (results : List DocObject) :
    List DocObject × Trace :=
  if jsTruthyStr config.package then
    let r := _generateForPackageJSON env config
    (results ++ [r.1], r.2)
  else (results, [])

/-- Outcome of `_publish`. -/
inductive PublishOutcome where
  | completed
  | exitedNonZero (code : Nat)
  deriving DecidableEq, Repr

/-- Lines 257-283 of `ESDoc.js`, `_publish`: hand the `write`/`copy`/`read`
primitives to `Plugin.onPublish`; any throw inside the try block is logged
with `InvalidCodeLogger.showError` and the process exits with code 1. -/
def _publish (env : Env) (plugins : Plugins) (config : Config) : PublishOutcome × Trace :=
  match plugins.onPublish with
  | Except.error _ => (PublishOutcome.exitedNonZero 1, [Event.logError])
  | Except.ok writes =>
    (PublishOutcome.completed,
     writes.map (fun w => Event.writeFile (env.resolve2 (config.destination.getD "") w)))

/-- Outcome of a whole `generate` run: an `assert` throw, an uncaught
error, a `process.exit`, or completion with the final doc sequence. -/
inductive GenOutcome where
  | assertFailed
  | fatal (e : String)
  | exited (code : Nat)
  | completed (results : List DocObject)
  deriving DecidableEq, Repr

/-- Lines 34-36 of `ESDoc.js`: the config the rest of the run uses is
`_setDefaultConfig` applied to what `Plugin.onHandleConfig` returned. -/
def normConfig (plugins : Plugins) (config : Config) : Config :=
  _setDefaultConfig (plugins.onHandleConfig config)

/-- Lines 39-113 of `ESDoc.js`: the body of `generate` after the asserts
and config handling, over the already-normalized config.  Compile the
patterns, read the package info, walk and process the source files
(an uncaught error is fatal), push the synthetic index doc (an uncaught
error is fatal) and package doc, resolve duplicates, run `onHandleDocs`,
write `index.json` and the per-file ASTs, and run `_publish` (which may
exit the process). -/
def generateRest (env : Env) (plugins : Plugins) (config : Config) : GenOutcome × Trace :=
  let includes := config.includes.getD []
  let excludes := config.excludes.getD []
  let pkgI := packageInfoStage env config
  let sourceDirPath := env.resolve1 (config.source.getD "")
  let files := env.walkFiles (config.source.getD "")
  let preTrace := pkgI.2 ++ [Event.walkDir (config.source.getD "")]
  let wf := walkFold env includes excludes sourceDirPath (config.source.getD "")
    pkgI.1.1 pkgI.1.2 files [] []
  match wf.1 with
  | Except.error e => (GenOutcome.fatal e, preTrace ++ wf.2)
  | Except.ok ra =>
    let ix := indexStage env config ra.1
    match ix.1 with
    | Except.error e => (GenOutcome.fatal e, preTrace ++ wf.2 ++ ix.2)
    | Except.ok results2 =>
      let pk := packageDocStage env config results2
      let results5 := plugins.onHandleDocs (_resolveDuplication pk.1)
      let indexJsonPath := env.resolve2 (config.destination.getD "") "index.json"
      let astTrace := ra.2.map (fun a =>
        Event.writeFile (env.resolve2 (config.destination.getD "") ("ast/" ++ a.1 ++ ".json")))
      let pub := _publish env plugins config
      let fullTrace := preTrace ++ wf.2 ++ ix.2 ++ pk.2 ++
        [Event.writeFile indexJsonPath] ++ astTrace ++ pub.2
      match pub.1 with
      | PublishOutcome.exitedNonZero c => (GenOutcome.exited c, fullTrace)
      | PublishOutcome.completed => (GenOutcome.completed results5, fullTrace)

/-- Lines 28-113 of `ESDoc.js`, `generate`: `assert(config.source)` and
`assert(config.destination)` come first (a failed assert throws before any
file-system access); then `Plugin.init`/`Plugin.onStart` (no observable
effect here), then the config is passed through `onHandleConfig` and the
defaults are filled, and the rest of the pipeline runs. -/
def generate (env : Env) (plugins : Plugins) (config : Config) : GenOutcome × Trace :=
  if !(jsTruthyStr config.source) then (GenOutcome.assertFailed, [])
  else if !(jsTruthyStr config.destination) then (GenOutcome.assertFailed, [])
  else generateRest env plugins (normConfig plugins config)

/-- Lines 28-37 of `ESDoc.js` in isolation: the order of the
assert/hook/default steps.  Returns `none` when an assert throws, and
otherwise the pair of (the config value passed to `Plugin.onHandleConfig`,
the config after `_setDefaultConfig`). -/
def configStage (hook : Config → Config) (config : Config) : Option (Config × Config) :=
  if !(jsTruthyStr config.source) then none
  else if !(jsTruthyStr config.destination) then none
  else some (config, _setDefaultConfig (hook config))

/-! ### Concrete inputs used by witnesses and counterexamples -/

/-- the three concrete member docs of the C1 regression scenario. -/
def docMemberY2 : DocObject := { kind := "member", longname := "Y", __docId__ := some "2" }

def docMemberY10 : DocObject := { kind := "member", longname := "Y", __docId__ := some "10" }

def docMemberY3 : DocObject := { kind := "member", longname := "Y", __docId__ := some "3" }

/-- concrete docs for the C4 member/method scenario. -/
def docMemberX : DocObject :=
  { kind := "member", longname := "X", name := "x", __docId__ := some "1" }

def docMethodX : DocObject :=
  { kind := "method", longname := "X", name := "x", __docId__ := some "0" }

/-- a benign concrete environment: one source file `a.js` that parses to an
empty tree; every read succeeds with empty text. -/
def envTrivial : Env :=
  { resolve1 := fun p => p
    resolve2 := fun a b => a ++ "/" ++ b
    relative := fun _ fp => fp
    basename := fun p => p
    pathSep := "/"
    readFile := fun _ => Except.ok ""
    walkFiles := fun _ => ["a.js"]
    parse := fun _ => Except.ok 0
    nodesOf := fun _ => []
    push := fun _ _ acc => Except.ok acc
    regexMatch := fun pat _ => pat == "\\.(js|es6)$"
    jsonNameMain := fun _ => Except.ok (none, none) }

/-- the identity plugin host (no plugins loaded). -/
def pluginsId : Plugins := {}

/-- a minimal valid configuration: only the two required fields. -/
def cfgBare : Config := { source := some "./src", destination := some "./out" }

/-- a configuration with an explicit index document. -/
def cfgIndexed : Config :=
  { source := some "./src", destination := some "./out", index := some "./README.md" }

/-- a configuration missing the required `source`. -/
def cfgNoSource : Config := { destination := some "./out" }

/-- an environment in which every file read throws. -/
def envUnreadable : Env := { envTrivial with readFile := fun _ => Except.error "EACCES" }

/-- an environment whose doc factory throws on the single node of `a.js`. -/
def envPushFail : Env :=
  { envTrivial with
    nodesOf := fun _ => [0]
    push := fun _ _ _ => Except.error "boom" }

/-- an environment with one unparsable file `bad.js` and one good file `good.js`. -/
def envParseFail : Env :=
  { envTrivial with
    walkFiles := fun _ => ["bad.js", "good.js"]
    parse := fun fp => if fp == "bad.js" then Except.error "SyntaxError" else Except.ok 0 }

/-- a plugin host whose `onPublish` hook raises. -/
def pluginsFailPub : Plugins := { onPublish := Except.error "render failed" }

/-! ### Facts about the duplicate resolver -/

theorem insertId_perm (a : DocId) (l : List DocId) : (insertId a l).Perm (a :: l) := by
  induction l with
  | nil => simp [insertId]
  | cons b bs ih =>
    by_cases h : idLt a b = true
    · simp [insertId, h]
    · simp only [insertId, h, if_neg, Bool.false_eq_true, not_false_eq_true]
      exact (ih.cons b).trans (List.Perm.swap a b bs)

theorem sortIds_perm (l : List DocId) : (sortIds l).Perm l := by
  induction l with
  | nil => simp [sortIds]
  | cons a as ih => exact (insertId_perm a (sortIds as)).trans (ih.cons a)

theorem contains_iff_mem (l : List DocId) (a : DocId) : l.contains a = true ↔ a ∈ l := by
  simp [List.contains]

theorem contains_eq_false_iff (l : List DocId) (a : DocId) : l.contains a = false ↔ a ∉ l := by
  rw [← contains_iff_mem l a]
  cases l.contains a <;> simp

theorem mem_foldl_append {α β : Type} (f : α → List β) (l : List α) (init : List β) (b : β) :
    b ∈ l.foldl (fun acc x => acc ++ f x) init ↔ b ∈ init ∨ ∃ x ∈ l, b ∈ f x := by
  induction l generalizing init with
  | nil => simp
  | cons y ys ih =>
    simp only [List.foldl_cons, ih, List.mem_append, List.mem_cons]
    constructor
    · rintro ((h | h) | ⟨x, hx, hb⟩)
      · exact Or.inl h
      · exact Or.inr ⟨y, Or.inl rfl, h⟩
      · exact Or.inr ⟨x, Or.inr hx, hb⟩
    · rintro (h | ⟨x, (rfl | hx), hb⟩)
      · exact Or.inl (Or.inl h)
      · exact Or.inl (Or.inr hb)
      · exact Or.inr ⟨x, hx, hb⟩

theorem mem_removeIds_iff (docs : List DocObject) (i : DocId) :
    i ∈ removeIds docs ↔ ∃ m ∈ docs, m.kind = "member" ∧ i ∈ removeIdsFor docs m := by
  unfold removeIds
  rw [mem_foldl_append]
  simp [List.mem_filter, and_assoc]

theorem hasNonMemberAt_iff (docs : List DocObject) (ln : String) :
    hasNonMemberAt docs ln = true ↔ ∃ n ∈ docs, n.longname = ln ∧ n.kind ≠ "member" := by
  unfold hasNonMemberAt
  rw [List.find?_isSome]
  simp

theorem mem_membersAt_iff (docs : List DocObject) (ln : String) (d : DocObject) :
    d ∈ membersAt docs ln ↔ d ∈ docs ∧ d.longname = ln ∧ d.kind = "member" := by
  unfold membersAt
  simp [List.mem_filter, and_assoc]

theorem mem_removeIdsFor_iff (docs : List DocObject) (m : DocObject) (i : DocId) :
    i ∈ removeIdsFor docs m ↔
      (hasNonMemberAt docs m.longname = true ∧ i = m.__docId__) ∨
      (hasNonMemberAt docs m.longname = false ∧ 1 < (membersAt docs m.longname).length ∧
        i ∈ (sortIds ((membersAt docs m.longname).map (fun v => v.__docId__))).drop 1) := by
  unfold removeIdsFor
  by_cases h : hasNonMemberAt docs m.longname = true
  · simp [h]
  · have h' : hasNonMemberAt docs m.longname = false := by
      cases hb : hasNonMemberAt docs m.longname
      · rfl
      · exact absurd hb h
    by_cases h2 : 1 < (membersAt docs m.longname).length
    · simp [h', h2]
    · simp [h', h2]

theorem mem_of_mem_sortIds_drop (l : List DocId) (i : DocId) (n : Nat)
    (h : i ∈ (sortIds l).drop n) : i ∈ l :=
  (sortIds_perm l).mem_iff.mp (List.mem_of_mem_drop h)

theorem removeIds_mem_is_member_id (docs : List DocObject) (i : DocId)
    (h : i ∈ removeIds docs) : ∃ m ∈ docs, m.kind = "member" ∧ m.__docId__ = i := by
  obtain ⟨m, hm, hmk, hi⟩ := (mem_removeIds_iff docs i).mp h
  rcases (mem_removeIdsFor_iff docs m i).mp hi with ⟨_, rfl⟩ | ⟨_, _, hdrop⟩
  · exact ⟨m, hm, hmk, rfl⟩
  · obtain ⟨d, hd, hdi⟩ := List.mem_map.mp (mem_of_mem_sortIds_drop _ _ _ hdrop)
    obtain ⟨hd1, _, hd3⟩ := (mem_membersAt_iff docs m.longname d).mp hd
    exact ⟨d, hd1, hd3, hdi⟩

theorem docId_injOn (docs : List DocObject)
    (h : (docs.map (fun d => d.__docId__)).Nodup)
    {a b : DocObject} (ha : a ∈ docs) (hb : b ∈ docs)
    (hab : a.__docId__ = b.__docId__) : a = b :=
  List.inj_on_of_nodup_map h ha hb hab

theorem member_id_mem_removeIds_iff (docs : List DocObject)
    (h : (docs.map (fun d => d.__docId__)).Nodup)
    (m : DocObject) (hm : m ∈ docs) (hmk : m.kind = "member") :
    m.__docId__ ∈ removeIds docs ↔
      hasNonMemberAt docs m.longname = true ∨
      (1 < (membersAt docs m.longname).length ∧
        m.__docId__ ∈ (sortIds ((membersAt docs m.longname).map (fun v => v.__docId__))).drop 1) := by
  constructor
  · intro hmem
    obtain ⟨m', hm', hm'k, hi⟩ := (mem_removeIds_iff docs _).mp hmem
    rcases (mem_removeIdsFor_iff docs m' _).mp hi with ⟨hnm, heq⟩ | ⟨_, hlen, hdrop⟩
    · have hmm : m = m' := docId_injOn docs h hm hm' heq
      rw [hmm]
      exact Or.inl hnm
    · obtain ⟨d, hd, hdi⟩ := List.mem_map.mp (mem_of_mem_sortIds_drop _ _ _ hdrop)
      obtain ⟨hd1, hd2, _⟩ := (mem_membersAt_iff docs m'.longname d).mp hd
      have hdm : d = m := docId_injOn docs h hd1 hm hdi
      have hln : m.longname = m'.longname := hdm ▸ hd2
      rw [hln]
      exact Or.inr ⟨hlen, hdrop⟩
  · intro hcase
    apply (mem_removeIds_iff docs _).mpr
    refine ⟨m, hm, hmk, (mem_removeIdsFor_iff docs m _).mpr ?_⟩
    rcases hcase with hnm | ⟨hlen, hdrop⟩
    · exact Or.inl ⟨hnm, rfl⟩
    · cases hb : hasNonMemberAt docs m.longname
      · exact Or.inr ⟨rfl, hlen, hdrop⟩
      · exact Or.inl ⟨rfl, rfl⟩

theorem mem_resolveDuplication_iff (docs : List DocObject) (d : DocObject) :
    d ∈ _resolveDuplication docs ↔ d ∈ docs ∧ d.__docId__ ∉ removeIds docs := by
  unfold _resolveDuplication
  rw [List.mem_filter]
  simp only [Bool.not_eq_true', contains_eq_false_iff]

theorem member_removed_of_nonmember (docs : List DocObject) (m : DocObject)
    (hm : m ∈ docs) (hmk : m.kind = "member")
    (n : DocObject) (hn : n ∈ docs) (hln : n.longname = m.longname)
    (hnk : n.kind ≠ "member") : m ∉ _resolveDuplication docs := by
  intro hmem
  obtain ⟨-, hno⟩ := (mem_resolveDuplication_iff docs m).mp hmem
  apply hno
  apply (mem_removeIds_iff docs _).mpr
  refine ⟨m, hm, hmk, (mem_removeIdsFor_iff docs m _).mpr (Or.inl ⟨?_, rfl⟩)⟩
  exact (hasNonMemberAt_iff docs m.longname).mpr ⟨n, hn, hln, hnk⟩

theorem length_gt_one_of_two_mem {α : Type} {l : List α} {a b : α}
    (ha : a ∈ l) (hb : b ∈ l) (hne : a ≠ b) : 1 < l.length := by
  cases l with
  | nil => exact absurd ha (by simp)
  | cons x t =>
    cases t with
    | nil =>
      rw [List.mem_singleton] at ha hb
      exact absurd (ha.trans hb.symm) hne
    | cons y s => simp

theorem exists_two_of_length_gt_one {α : Type} {l : List α}
    (h : 1 < l.length) : ∃ x y t, l = x :: y :: t := by
  cases l with
  | nil => simp at h
  | cons x t =>
    cases t with
    | nil => simp at h
    | cons y s => exact ⟨x, y, s, rfl⟩

theorem resolveDuplication_sublist (docs : List DocObject) :
    (_resolveDuplication docs).Sublist docs :=
  List.filter_sublist docs

theorem members_at_same_longname_eq (docs : List DocObject)
    (h : (docs.map (fun d => d.__docId__)).Nodup)
    (m1 m2 : DocObject)
    (h1 : m1 ∈ _resolveDuplication docs) (h2 : m2 ∈ _resolveDuplication docs)
    (hk1 : m1.kind = "member") (hk2 : m2.kind = "member")
    (hl : m1.longname = m2.longname) : m1 = m2 := by
  by_contra hne
  obtain ⟨hm1, hno1⟩ := (mem_resolveDuplication_iff docs m1).mp h1
  obtain ⟨hm2, hno2⟩ := (mem_resolveDuplication_iff docs m2).mp h2
  by_cases hnm : hasNonMemberAt docs m1.longname = true
  · obtain ⟨n, hn, hln, hnk⟩ := (hasNonMemberAt_iff docs m1.longname).mp hnm
    exact (member_removed_of_nonmember docs m1 hm1 hk1 n hn hln hnk) h1
  · have hg1 : m1 ∈ membersAt docs m1.longname :=
      (mem_membersAt_iff _ _ _).mpr ⟨hm1, rfl, hk1⟩
    have hg2 : m2 ∈ membersAt docs m1.longname :=
      (mem_membersAt_iff _ _ _).mpr ⟨hm2, hl.symm, hk2⟩
    have hlen : 1 < (membersAt docs m1.longname).length :=
      length_gt_one_of_two_mem hg1 hg2 hne
    have hmem1 : m1.__docId__ ∈ sortIds ((membersAt docs m1.longname).map (fun v => v.__docId__)) :=
      (sortIds_perm _).mem_iff.mpr (List.mem_map.mpr ⟨m1, hg1, rfl⟩)
    have hmem2 : m2.__docId__ ∈ sortIds ((membersAt docs m1.longname).map (fun v => v.__docId__)) :=
      (sortIds_perm _).mem_iff.mpr (List.mem_map.mpr ⟨m2, hg2, rfl⟩)
    have hnotin1 : m1.__docId__ ∉
        (sortIds ((membersAt docs m1.longname).map (fun v => v.__docId__))).drop 1 := by
      intro hc
      exact hno1 ((member_id_mem_removeIds_iff docs h m1 hm1 hk1).mpr (Or.inr ⟨hlen, hc⟩))
    have hnotin2 : m2.__docId__ ∉
        (sortIds ((membersAt docs m1.longname).map (fun v => v.__docId__))).drop 1 := by
      intro hc
      apply hno2
      apply (member_id_mem_removeIds_iff docs h m2 hm2 hk2).mpr
      rw [← hl]
      exact Or.inr ⟨hlen, hc⟩
    obtain ⟨i0, t, hsort⟩ : ∃ i0 t,
        sortIds ((membersAt docs m1.longname).map (fun v => v.__docId__)) = i0 :: t := by
      cases hs : sortIds ((membersAt docs m1.longname).map (fun v => v.__docId__)) with
      | nil =>
        have := (sortIds_perm ((membersAt docs m1.longname).map (fun v => v.__docId__))).length_eq
        rw [hs] at this
        simp at this
        omega
      | cons i0 t => exact ⟨i0, t, rfl⟩
    rw [hsort] at hmem1 hmem2 hnotin1 hnotin2
    simp only [List.drop_succ_cons, List.drop_zero] at hnotin1 hnotin2
    have he1 : m1.__docId__ = i0 := by
      rcases List.mem_cons.mp hmem1 with e | e
      · exact e
      · exact absurd e hnotin1
    have he2 : m2.__docId__ = i0 := by
      rcases List.mem_cons.mp hmem2 with e | e
      · exact e
      · exact absurd e hnotin2
    exact hne (docId_injOn docs h hm1 hm2 (he1.trans he2.symm))

theorem length_eq_three_exists {α : Type} : ∀ (l : List α), l.length = 3 → ∃ a b c, l = [a, b, c]
  | [], h => by simp at h
  | [a], h => by simp at h
  | [a, b], h => by simp at h
  | [a, b, c], _ => ⟨a, b, c, rfl⟩
  | a :: b :: c :: d :: t, h => by simp at h

theorem sortIds_eq_of_perm_c1 (l : List DocId)
    (hp : l.Perm [some "2", some "10", some "3"]) :
    sortIds l = [some "10", some "2", some "3"] := by
  obtain ⟨a, b, c, rfl⟩ := length_eq_three_exists l (by simpa using hp.length_eq)
  have ha : a ∈ [some "2", some "10", some "3"] := hp.mem_iff.mp (by simp)
  have hb : b ∈ [some "2", some "10", some "3"] := hp.mem_iff.mp (by simp)
  have hc : c ∈ [some "2", some "10", some "3"] := hp.mem_iff.mp (by simp)
  simp only [List.mem_cons, List.mem_singleton, List.not_mem_nil, or_false] at ha hb hc
  rcases ha with rfl | rfl | rfl <;> rcases hb with rfl | rfl | rfl <;>
      rcases hc with rfl | rfl | rfl <;>
    first
      | decide
      | exact absurd hp (by decide)

/-- C1: among duplicate member-kind docs at one longname with identifiers
`"2"`, `"10"`, `"3"` (and no non-member doc at that longname), duplicate
resolution retains exactly the doc with identifier `"10"` — the lexically
smallest string — and removes the other two. -/
theorem resolveDuplication_keeps_lex_min (docs : List DocObject) (Y : String)
    (h : (docs.map (fun d => d.__docId__)).Nodup)
    (d2 d10 d3 : DocObject)
    (h2 : d2 ∈ docs) (h10 : d10 ∈ docs) (h3 : d3 ∈ docs)
    (hk2 : d2.kind = "member") (hk10 : d10.kind = "member") (hk3 : d3.kind = "member")
    (hl2 : d2.longname = Y) (hl10 : d10.longname = Y) (hl3 : d3.longname = Y)
    (hi2 : d2.__docId__ = some "2") (hi10 : d10.__docId__ = some "10")
    (hi3 : d3.__docId__ = some "3")
    (honly : ∀ d ∈ docs, d.longname = Y → d.kind = "member")
    (hexact : ∀ d ∈ docs, d.longname = Y → d ∈ [d2, d10, d3]) :
    d10 ∈ _resolveDuplication docs ∧
      d2 ∉ _resolveDuplication docs ∧ d3 ∉ _resolveDuplication docs := by
  have hnm : hasNonMemberAt docs Y = false := by
    rw [Bool.eq_false_iff]
    intro hc
    obtain ⟨n, hn, hln, hnk⟩ := (hasNonMemberAt_iff docs Y).mp hc
    exact hnk (honly n hn hln)
  have hnd : docs.Nodup := List.Nodup.of_map _ h
  have hgnodup : (membersAt docs Y).Nodup :=
    List.Nodup.sublist (List.filter_sublist docs) hnd
  have hgsubset : membersAt docs Y ⊆ [d2, d10, d3] := by
    intro x hx
    obtain ⟨hx1, hx2, -⟩ := (mem_membersAt_iff docs Y x).mp hx
    exact hexact x hx1 hx2
  have hrsubset : ([d2, d10, d3] : List DocObject) ⊆ membersAt docs Y := by
    intro x hx
    rcases List.mem_cons.mp hx with rfl | hx
    · exact (mem_membersAt_iff docs Y x).mpr ⟨h2, hl2, hk2⟩
    rcases List.mem_cons.mp hx with rfl | hx
    · exact (mem_membersAt_iff docs Y x).mpr ⟨h10, hl10, hk10⟩
    rcases List.mem_singleton.mp hx with rfl
    exact (mem_membersAt_iff docs Y x).mpr ⟨h3, hl3, hk3⟩
  have hne210 : d2 ≠ d10 := by
    intro he
    rw [he, hi10] at hi2
    exact absurd hi2 (by decide)
  have hne23 : d2 ≠ d3 := by
    intro he
    rw [he, hi3] at hi2
    exact absurd hi2 (by decide)
  have hne103 : d10 ≠ d3 := by
    intro he
    rw [he, hi3] at hi10
    exact absurd hi10 (by decide)
  have htrip : ([d2, d10, d3] : List DocObject).Nodup := by
    simp [List.nodup_cons, hne210, hne23, hne103]
  have hgperm : (membersAt docs Y).Perm [d2, d10, d3] :=
    (List.subperm_of_subset hgnodup hgsubset).antisymm
      (List.subperm_of_subset htrip hrsubset)
  have hidsperm :
      ((membersAt docs Y).map (fun v => v.__docId__)).Perm [some "2", some "10", some "3"] := by
    have hmp := hgperm.map (fun v => v.__docId__)
    simpa [hi2, hi10, hi3] using hmp
  have hsort : sortIds ((membersAt docs Y).map (fun v => v.__docId__)) =
      [some "10", some "2", some "3"] := sortIds_eq_of_perm_c1 _ hidsperm
  have hlen : 1 < (membersAt docs Y).length := by
    rw [hgperm.length_eq]
    simp
  refine ⟨?_, ?_, ?_⟩
  · apply (mem_resolveDuplication_iff docs d10).mpr
    refine ⟨h10, fun hc => ?_⟩
    rcases (member_id_mem_removeIds_iff docs h d10 h10 hk10).mp hc with hx | ⟨-, hdrop⟩
    · rw [hl10, hnm] at hx
      exact absurd hx (by decide)
    · rw [hl10, hsort, hi10] at hdrop
      exact absurd hdrop (by decide)
  · intro hc
    obtain ⟨-, hno⟩ := (mem_resolveDuplication_iff docs d2).mp hc
    apply hno
    apply (mem_removeIds_iff docs _).mpr
    refine ⟨d2, h2, hk2, (mem_removeIdsFor_iff docs d2 _).mpr (Or.inr ?_)⟩
    rw [hl2, hsort, hi2, hnm]
    refine ⟨rfl, hlen, by decide⟩
  · intro hc
    obtain ⟨-, hno⟩ := (mem_resolveDuplication_iff docs d3).mp hc
    apply hno
    apply (mem_removeIds_iff docs _).mpr
    refine ⟨d3, h3, hk3, (mem_removeIdsFor_iff docs d3 _).mpr (Or.inr ?_)⟩
    rw [hl3, hsort, hi3, hnm]
    refine ⟨rfl, hlen, by decide⟩

/-- C1 witness: the theorem applied to the concrete three-doc sequence. -/
theorem resolveDuplication_keeps_lex_min_witness :
    docMemberY10 ∈ _resolveDuplication [docMemberY2, docMemberY10, docMemberY3] ∧
      docMemberY2 ∉ _resolveDuplication [docMemberY2, docMemberY10, docMemberY3] ∧
      docMemberY3 ∉ _resolveDuplication [docMemberY2, docMemberY10, docMemberY3] :=
  resolveDuplication_keeps_lex_min [docMemberY2, docMemberY10, docMemberY3] "Y"
    (by decide) docMemberY2 docMemberY10 docMemberY3
    (by decide) (by decide) (by decide)
    (by decide) (by decide) (by decide)
    (by decide) (by decide) (by decide)
    (by decide) (by decide) (by decide)
    (by decide) (by decide)

/-- C4: in a sequence of docs with unique identifiers, a member-kind doc
that shares its longname with a doc of a different, non-member kind is
absent from the output of duplicate resolution; in particular, of one
member-kind doc and one method-kind doc with the same longname exactly the
method-kind doc survives. -/
theorem resolveDuplication_member_yields_to_nonmember :
    (∀ docs : List DocObject, (docs.map (fun d => d.__docId__)).Nodup →
      ∀ m ∈ docs, m.kind = "member" →
      ∀ n ∈ docs, n.longname = m.longname → n.kind ≠ "member" →
      m ∉ _resolveDuplication docs) ∧
    _resolveDuplication [docMemberX, docMethodX] = [docMethodX] := by
  constructor
  · intro docs _ m hm hmk n hn hln hnk
    exact member_removed_of_nonmember docs m hm hmk n hn hln hnk
  · decide

/-- C4 witness: the theorem applied to the concrete member/method pair. -/
theorem resolveDuplication_member_yields_to_nonmember_witness :
    docMemberX ∉ _resolveDuplication [docMemberX, docMethodX] :=
  resolveDuplication_member_yields_to_nonmember.1 [docMemberX, docMethodX]
    (by decide) docMemberX (by decide) (by decide) docMethodX (by decide) (by decide) (by decide)

/-- C10: duplicate resolution over a sequence with unique identifiers is
idempotent, and only member-kind docs are ever removed: the non-member
docs of the output are exactly the non-member docs of the input, in their
original relative order. -/
theorem resolveDuplication_idempotent (docs : List DocObject)
    (h : (docs.map (fun d => d.__docId__)).Nodup) :
    _resolveDuplication (_resolveDuplication docs) = _resolveDuplication docs ∧
      (_resolveDuplication docs).filter (fun d => !(d.kind == "member")) =
        docs.filter (fun d => !(d.kind == "member")) := by
  have hsub : (_resolveDuplication docs).Sublist docs := resolveDuplication_sublist docs
  have hnd : docs.Nodup := List.Nodup.of_map _ h
  have houtids : ((_resolveDuplication docs).map (fun d => d.__docId__)).Nodup :=
    List.Nodup.sublist (List.Sublist.map _ hsub) h
  have houtnd : (_resolveDuplication docs).Nodup := List.Nodup.of_map _ houtids
  constructor
  · have key : ∀ d ∈ _resolveDuplication docs,
        d.__docId__ ∉ removeIds (_resolveDuplication docs) := by
      intro d hd hc
      obtain ⟨m, hmo, hmk, hmi⟩ := removeIds_mem_is_member_id (_resolveDuplication docs) _ hc
      rw [← hmi] at hc
      obtain ⟨hmdocs, -⟩ := (mem_resolveDuplication_iff docs m).mp hmo
      rcases (member_id_mem_removeIds_iff (_resolveDuplication docs) houtids m hmo hmk).mp hc
        with hx | ⟨hlen, -⟩
      · obtain ⟨n, hn, hln, hnk⟩ := (hasNonMemberAt_iff _ _).mp hx
        obtain ⟨hndocs, -⟩ := (mem_resolveDuplication_iff docs n).mp hn
        exact (member_removed_of_nonmember docs m hmdocs hmk n hndocs hln hnk) hmo
      · obtain ⟨x, y, t, hxy⟩ := exists_two_of_length_gt_one hlen
        have hx : x ∈ membersAt (_resolveDuplication docs) m.longname := by
          rw [hxy]; simp
        have hy : y ∈ membersAt (_resolveDuplication docs) m.longname := by
          rw [hxy]; simp
        obtain ⟨hx1, hx2, hx3⟩ := (mem_membersAt_iff _ _ _).mp hx
        obtain ⟨hy1, hy2, hy3⟩ := (mem_membersAt_iff _ _ _).mp hy
        have hxyeq : x = y :=
          members_at_same_longname_eq docs h x y hx1 hy1 hx3 hy3 (hx2.trans hy2.symm)
        have hgnodup : (membersAt (_resolveDuplication docs) m.longname).Nodup :=
          List.Nodup.sublist (List.filter_sublist _) houtnd
        rw [hxy, List.nodup_cons] at hgnodup
        exact hgnodup.1 (hxyeq ▸ List.mem_cons_self y t)
    unfold _resolveDuplication
    apply List.filter_eq_self.mpr
    intro a ha
    rw [Bool.not_eq_true', contains_eq_false_iff]
    exact key a ha
  · show (docs.filter _).filter _ = _
    rw [List.filter_filter]
    apply List.filter_congr
    intro x hx
    cases hk : (x.kind == "member") with
    | true => simp
    | false =>
      simp only [Bool.not_false, Bool.true_and]
      rw [Bool.not_eq_true', contains_eq_false_iff]
      intro hc
      obtain ⟨m, hm, hmk, hmi⟩ := removeIds_mem_is_member_id docs _ hc
      have : m = x := docId_injOn docs h hm hx hmi
      rw [this] at hmk
      rw [hmk] at hk
      simp at hk

/-- C10 witness: the theorem applied to the concrete three-duplicate sequence. -/
theorem resolveDuplication_idempotent_witness :
    _resolveDuplication (_resolveDuplication [docMemberY2, docMemberY10, docMemberY3]) =
        _resolveDuplication [docMemberY2, docMemberY10, docMemberY3] ∧
      (_resolveDuplication [docMemberY2, docMemberY10, docMemberY3]).filter
          (fun d => !(d.kind == "member")) =
        ([docMemberY2, docMemberY10, docMemberY3] : List DocObject).filter
          (fun d => !(d.kind == "member")) :=
  resolveDuplication_idempotent [docMemberY2, docMemberY10, docMemberY3] (by decide)

/-! ### Facts about file filtering and per-file extraction -/

theorem includeMatchLoop_iff (env : Env) (rel : String) (l : List String) :
    includeMatchLoop env rel l = true ↔ ∃ reg ∈ l, env.regexMatch reg rel = true := by
  induction l with
  | nil => simp [includeMatchLoop]
  | cons r rs ih =>
    by_cases h : env.regexMatch r rel = true
    · simp [includeMatchLoop, h]
    · simp only [Bool.not_eq_true] at h
      simp [includeMatchLoop, h, ih]

theorem excludeMatchLoop_iff (env : Env) (rel : String) (l : List String) :
    excludeMatchLoop env rel l = true ↔ ∃ reg ∈ l, env.regexMatch reg rel = true := by
  induction l with
  | nil => simp [excludeMatchLoop]
  | cons r rs ih =>
    by_cases h : env.regexMatch r rel = true
    · simp [excludeMatchLoop, h]
    · simp only [Bool.not_eq_true] at h
      simp [excludeMatchLoop, h, ih]

theorem excludeMatchLoop_eq_false_iff (env : Env) (rel : String) (l : List String) :
    excludeMatchLoop env rel l = false ↔ ∀ reg ∈ l, env.regexMatch reg rel = false := by
  rw [Bool.eq_false_iff, Ne, excludeMatchLoop_iff]
  simp [Bool.not_eq_true]

theorem parseFile_mem_traverse_trace (env : Env) (inDirPath filePath : String)
    (packageName mainFilePath : Option String) :
    Event.parseFile filePath ∈ (_traverse env inDirPath filePath packageName mainFilePath).2 := by
  unfold _traverse
  cases env.parse filePath with
  | error e => simp
  | ok ast =>
    rcases hp : pushNodes env filePath (env.nodesOf ast) [] with ⟨r, tr⟩
    cases r <;> simp [hp]

/-- C5: a discovered plain file is handed to the extractor (i.e. reaches
`_traverse`, which is observable as the parse of that file) iff its path
relative to the resolved source root matches at least one include pattern
and matches no exclude pattern. -/
theorem processFile_extracts_iff (env : Env) (includes excludes : List String)
    (sourceDirPath inDirPath : String) (packageName mainFilePath : Option String)
    (filePath : String) :
    Event.parseFile filePath ∈
        (processFile env includes excludes sourceDirPath inDirPath packageName mainFilePath
          filePath).2 ↔
      ((∃ reg ∈ includes, env.regexMatch reg (env.relative sourceDirPath filePath) = true) ∧
        ∀ reg ∈ excludes, env.regexMatch reg (env.relative sourceDirPath filePath) = false) := by
  unfold processFile
  by_cases hinc : includeMatchLoop env (env.relative sourceDirPath filePath) includes = true
  · by_cases hexc : excludeMatchLoop env (env.relative sourceDirPath filePath) excludes = true
    · apply iff_of_false
      · simp [hinc, hexc]
      · rintro ⟨-, hall⟩
        obtain ⟨reg, hr, hm⟩ := (excludeMatchLoop_iff env _ excludes).mp hexc
        rw [hall reg hr] at hm
        exact absurd hm (by simp)
    · have hexc' : excludeMatchLoop env (env.relative sourceDirPath filePath) excludes = false := by
        cases hb : excludeMatchLoop env (env.relative sourceDirPath filePath) excludes
        · rfl
        · exact absurd hb hexc
      apply iff_of_true
      · have hmem := parseFile_mem_traverse_trace env inDirPath filePath packageName mainFilePath
        rcases ht : _traverse env inDirPath filePath packageName mainFilePath with ⟨r, tr⟩
        rw [ht] at hmem
        cases r with
        | error e => simp [hinc, hexc', ht, hmem]
        | ok v => cases v <;> simp [hinc, hexc', ht, hmem]
      · exact ⟨(includeMatchLoop_iff env _ includes).mp hinc,
          (excludeMatchLoop_eq_false_iff env _ excludes).mp hexc'⟩
  · apply iff_of_false
    · simp [hinc]
    · rintro ⟨hsome, -⟩
      exact hinc ((includeMatchLoop_iff env _ includes).mpr hsome)

theorem pushNodes_ok (env : Env) (filePath : String)
    (hpush : ∀ fp n acc, ∃ r, env.push fp n acc = Except.ok r) :
    ∀ (nodes : List Node) (acc : List DocObject),
      ∃ r, pushNodes env filePath nodes acc = (Except.ok r, []) := by
  intro nodes
  induction nodes with
  | nil => intro acc; exact ⟨acc, rfl⟩
  | cons n rest ih =>
    intro acc
    obtain ⟨r, hr⟩ := hpush filePath n acc
    obtain ⟨r2, hr2⟩ := ih r
    exact ⟨r2, by simp [pushNodes, hr, hr2]⟩

theorem traverse_not_error (env : Env) (inDirPath filePath : String)
    (packageName mainFilePath : Option String)
    (hpush : ∀ fp n acc, ∃ r, env.push fp n acc = Except.ok r) :
    ∃ v tr, _traverse env inDirPath filePath packageName mainFilePath = (Except.ok v, tr) := by
  unfold _traverse
  cases env.parse filePath with
  | error e => exact ⟨none, _, rfl⟩
  | ok ast =>
    obtain ⟨r, hr⟩ := pushNodes_ok env filePath hpush (env.nodesOf ast) []
    refine ⟨some { results := r, ast := ast }, [Event.parseFile filePath], ?_⟩
    simp [hr]

theorem processFile_ok (env : Env) (includes excludes : List String)
    (sourceDirPath inDirPath : String) (packageName mainFilePath : Option String)
    (filePath : String)
    (hpush : ∀ fp n acc, ∃ r, env.push fp n acc = Except.ok r) :
    ∃ v tr, processFile env includes excludes sourceDirPath inDirPath packageName mainFilePath
        filePath = (Except.ok v, tr) := by
  unfold processFile
  by_cases h1 : includeMatchLoop env (env.relative sourceDirPath filePath) includes = true
  · by_cases h2 : excludeMatchLoop env (env.relative sourceDirPath filePath) excludes = true
    · exact ⟨none, [], by simp [h1, h2]⟩
    · obtain ⟨v, tr, hv⟩ :=
        traverse_not_error env inDirPath filePath packageName mainFilePath hpush
      cases v with
      | none => exact ⟨none, tr, by simp [h1, h2, hv]⟩
      | some t =>
        exact ⟨some (t.results, ("source" ++ env.pathSep ++ env.relative sourceDirPath filePath,
          t.ast)), tr, by simp [h1, h2, hv]⟩
  · exact ⟨none, [], by simp [h1]⟩

theorem processFile_parse_error (env : Env) (includes excludes : List String)
    (sourceDirPath inDirPath : String) (packageName mainFilePath : Option String)
    (fp e : String) (hpe : env.parse fp = Except.error e) :
    ∃ tr, processFile env includes excludes sourceDirPath inDirPath packageName mainFilePath fp =
      (Except.ok none, tr) := by
  unfold processFile
  by_cases h1 : includeMatchLoop env (env.relative sourceDirPath fp) includes = true
  · by_cases h2 : excludeMatchLoop env (env.relative sourceDirPath fp) excludes = true
    · exact ⟨[], by simp [h1, h2]⟩
    · exact ⟨[Event.parseFile fp, Event.logInvalidFile fp], by simp [h1, h2, _traverse, hpe]⟩
  · exact ⟨[], by simp [h1]⟩

theorem walkFold_ok (env : Env) (includes excludes : List String)
    (sourceDirPath inDirPath : String) (packageName mainFilePath : Option String)
    (hpush : ∀ fp n acc, ∃ r, env.push fp n acc = Except.ok r) :
    ∀ (files : List String) (results : List DocObject) (asts : List (String × AST)),
      ∃ ra tr, walkFold env includes excludes sourceDirPath inDirPath packageName mainFilePath
          files results asts = (Except.ok ra, tr) ∧
        ∀ fp ∈ files,
          includeMatchLoop env (env.relative sourceDirPath fp) includes = true →
          excludeMatchLoop env (env.relative sourceDirPath fp) excludes = false →
          Event.parseFile fp ∈ tr := by
  intro files
  induction files with
  | nil => intro results asts; exact ⟨(results, asts), [], rfl, by simp⟩
  | cons fp rest ih =>
    intro results asts
    obtain ⟨v, trh, hv⟩ := processFile_ok env includes excludes sourceDirPath inDirPath
      packageName mainFilePath fp hpush
    have hmemh : includeMatchLoop env (env.relative sourceDirPath fp) includes = true →
        excludeMatchLoop env (env.relative sourceDirPath fp) excludes = false →
        Event.parseFile fp ∈ trh := by
      intro hi he
      have hm := (processFile_extracts_iff env includes excludes sourceDirPath inDirPath
        packageName mainFilePath fp).mpr
        ⟨(includeMatchLoop_iff env _ includes).mp hi,
          (excludeMatchLoop_eq_false_iff env _ excludes).mp he⟩
      rw [hv] at hm
      exact hm
    cases v with
    | none =>
      obtain ⟨ra, tr2, hw, hmem⟩ := ih results asts
      refine ⟨ra, trh ++ tr2, by simp [walkFold, hv, hw], ?_⟩
      intro f hf hi he
      rcases List.mem_cons.mp hf with rfl | hf
      · exact List.mem_append.mpr (Or.inl (hmemh hi he))
      · exact List.mem_append.mpr (Or.inr (hmem f hf hi he))
    | some contrib =>
      obtain ⟨ra, tr2, hw, hmem⟩ := ih (results ++ contrib.1) (asts ++ [contrib.2])
      refine ⟨ra, trh ++ tr2, by simp [walkFold, hv, hw], ?_⟩
      intro f hf hi he
      rcases List.mem_cons.mp hf with rfl | hf
      · exact List.mem_append.mpr (Or.inl (hmemh hi he))
      · exact List.mem_append.mpr (Or.inr (hmem f hf hi he))

/-! ### Facts about config normalization and the whole run -/

theorem setDefaultConfig_filled (c : Config) :
    (_setDefaultConfig c).includes.isSome = true ∧
      (_setDefaultConfig c).excludes.isSome = true ∧
      jsTruthyStr (_setDefaultConfig c).index = true ∧
      jsTruthyStr (_setDefaultConfig c).package = true := by
  refine ⟨?_, ?_, ?_, ?_⟩ <;> simp only [_setDefaultConfig]
  · cases h : jsTruthyList c.includes
    · simp [h]
    · simp only [h, if_true]
      exact h
  · cases h : jsTruthyList c.excludes
    · simp [h]
    · simp only [h, if_true]
      exact h
  · cases h : jsTruthyStr c.index
    · simp [h]
      decide
    · simp only [h, if_true]
  · cases h : jsTruthyStr c.package
    · simp [h]
      decide
    · simp only [h, if_true]

theorem indexStage_ok (env : Env) (config : Config) (results : List DocObject)
    (hti : jsTruthyStr config.index = true) (s : String)
    (hrs : env.readFile (config.index.getD "") = Except.ok s) :
    indexStage env config results =
      (Except.ok (results ++ [indexDocObject env config s]),
       [Event.readFile (config.index.getD "")]) := by
  simp [indexStage, _generateForIndex, indexDocObject, hti, hrs]

theorem indexStage_error (env : Env) (config : Config) (results : List DocObject)
    (hti : jsTruthyStr config.index = true) (e : String)
    (hre : env.readFile (config.index.getD "") = Except.error e) :
    indexStage env config results = (Except.error e, [Event.readFile (config.index.getD "")]) := by
  simp [indexStage, _generateForIndex, hti, hre]

theorem generateRest_fatal_index (env : Env) (plugins : Plugins) (config : Config)
    (hpush : ∀ fp n acc, ∃ r, env.push fp n acc = Except.ok r)
    (hti : jsTruthyStr config.index = true) (e : String)
    (hre : env.readFile (config.index.getD "") = Except.error e) :
    ∃ tr, generateRest env plugins config = (GenOutcome.fatal e, tr) := by
  obtain ⟨ra, tr1, hw, -⟩ := walkFold_ok env (config.includes.getD []) (config.excludes.getD [])
    (env.resolve1 (config.source.getD "")) (config.source.getD "")
    (packageInfoStage env config).1.1 (packageInfoStage env config).1.2 hpush
    (env.walkFiles (config.source.getD "")) [] []
  have hix := indexStage_error env config ra.1 hti e hre
  refine ⟨(packageInfoStage env config).2 ++ [Event.walkDir (config.source.getD "")] ++ tr1 ++
    [Event.readFile (config.index.getD "")], ?_⟩
  simp [generateRest, hw, hix]

theorem generateRest_completed (env : Env) (plugins : Plugins) (config : Config)
    (hpush : ∀ fp n acc, ∃ r, env.push fp n acc = Except.ok r)
    (hti : jsTruthyStr config.index = true)
    (s : String) (hrs : env.readFile (config.index.getD "") = Except.ok s)
    (w : List String) (hwp : plugins.onPublish = Except.ok w) :
    ∃ results tr, generateRest env plugins config = (GenOutcome.completed results, tr) ∧
      Event.writeFile (env.resolve2 (config.destination.getD "") "index.json") ∈ tr ∧
      ∀ fp ∈ env.walkFiles (config.source.getD ""),
        includeMatchLoop env (env.relative (env.resolve1 (config.source.getD "")) fp)
            (config.includes.getD []) = true →
        excludeMatchLoop env (env.relative (env.resolve1 (config.source.getD "")) fp)
            (config.excludes.getD []) = false →
        Event.parseFile fp ∈ tr := by
  obtain ⟨ra, tr1, hw, hmem⟩ := walkFold_ok env (config.includes.getD []) (config.excludes.getD [])
    (env.resolve1 (config.source.getD "")) (config.source.getD "")
    (packageInfoStage env config).1.1 (packageInfoStage env config).1.2 hpush
    (env.walkFiles (config.source.getD "")) [] []
  have hix := indexStage_ok env config ra.1 hti s hrs
  have hpub : _publish env plugins config = (PublishOutcome.completed,
      w.map (fun wp => Event.writeFile (env.resolve2 (config.destination.getD "") wp))) := by
    simp [_publish, hwp]
  refine ⟨plugins.onHandleDocs (_resolveDuplication
      (packageDocStage env config (ra.1 ++ [indexDocObject env config s])).1),
    (packageInfoStage env config).2 ++ [Event.walkDir (config.source.getD "")] ++ tr1 ++
      [Event.readFile (config.index.getD "")] ++
      (packageDocStage env config (ra.1 ++ [indexDocObject env config s])).2 ++
      [Event.writeFile (env.resolve2 (config.destination.getD "") "index.json")] ++
      ra.2.map (fun a =>
        Event.writeFile (env.resolve2 (config.destination.getD "") ("ast/" ++ a.1 ++ ".json"))) ++
      w.map (fun wp => Event.writeFile (env.resolve2 (config.destination.getD "") wp)),
    ?_, ?_, ?_⟩
  · simp [generateRest, hw, hix, hpub]
  · simp
  · intro fp hf hi he
    have hp := hmem fp hf hi he
    simp [hp]

/-- C6: a file whose parse raises is isolated: per-file extraction returns
the null sentinel (contributing no docs and no AST) instead of propagating
the error, the walk continues with the remaining files unchanged, and a
run whose other stages succeed still completes and still writes the
`index.json` artifact while parsing every other passing file. -/
theorem parse_failure_isolated (env : Env) (plugins : Plugins) (config : Config)
    (hs : jsTruthyStr config.source = true) (hd : jsTruthyStr config.destination = true)
    (hpush : ∀ fp n acc, ∃ r, env.push fp n acc = Except.ok r)
    (hidx : ∃ s, env.readFile ((normConfig plugins config).index.getD "") = Except.ok s)
    (hpub : ∃ w, plugins.onPublish = Except.ok w) :
    (∀ inDirPath fp pn mf e, env.parse fp = Except.error e →
        _traverse env inDirPath fp pn mf =
          (Except.ok none, [Event.parseFile fp, Event.logInvalidFile fp])) ∧
      (∀ includes excludes sourceDirPath inDirPath pn mf fp e rest results asts,
        env.parse fp = Except.error e →
        (walkFold env includes excludes sourceDirPath inDirPath pn mf (fp :: rest) results
            asts).1 =
          (walkFold env includes excludes sourceDirPath inDirPath pn mf rest results asts).1) ∧
      ∃ results tr, generate env plugins config = (GenOutcome.completed results, tr) ∧
        Event.writeFile
            (env.resolve2 ((normConfig plugins config).destination.getD "") "index.json") ∈ tr ∧
        ∀ fp ∈ env.walkFiles ((normConfig plugins config).source.getD ""),
          includeMatchLoop env
              (env.relative (env.resolve1 ((normConfig plugins config).source.getD "")) fp)
              ((normConfig plugins config).includes.getD []) = true →
          excludeMatchLoop env
              (env.relative (env.resolve1 ((normConfig plugins config).source.getD "")) fp)
              ((normConfig plugins config).excludes.getD []) = false →
          Event.parseFile fp ∈ tr := by
  refine ⟨?_, ?_, ?_⟩
  · intro inDirPath fp pn mf e hpe
    simp [_traverse, hpe]
  · intro includes excludes sourceDirPath inDirPath pn mf fp e rest results asts hpe
    obtain ⟨tr, hpf⟩ := processFile_parse_error env includes excludes sourceDirPath inDirPath
      pn mf fp e hpe
    simp [walkFold, hpf]
  · obtain ⟨s, hrs⟩ := hidx
    obtain ⟨w, hwp⟩ := hpub
    have hti := (setDefaultConfig_filled (plugins.onHandleConfig config)).2.2.1
    have hgen : generate env plugins config =
        generateRest env plugins (normConfig plugins config) := by
      simp [generate, hs, hd]
    rw [hgen]
    exact generateRest_completed env plugins (normConfig plugins config) hpush hti s hrs w hwp

/-- C6 witness: with one unparsable file `bad.js` and one good file
`good.js`, the run completes, writes `index.json`, and still parses every
passing file. -/
theorem parse_failure_isolated_witness :
    ∃ results tr, generate envParseFail pluginsId cfgBare = (GenOutcome.completed results, tr) ∧
      Event.writeFile
          (envParseFail.resolve2 ((normConfig pluginsId cfgBare).destination.getD "")
            "index.json") ∈ tr ∧
      ∀ fp ∈ envParseFail.walkFiles ((normConfig pluginsId cfgBare).source.getD ""),
        includeMatchLoop envParseFail
            (envParseFail.relative
              (envParseFail.resolve1 ((normConfig pluginsId cfgBare).source.getD "")) fp)
            ((normConfig pluginsId cfgBare).includes.getD []) = true →
        excludeMatchLoop envParseFail
            (envParseFail.relative
              (envParseFail.resolve1 ((normConfig pluginsId cfgBare).source.getD "")) fp)
            ((normConfig pluginsId cfgBare).excludes.getD []) = false →
        Event.parseFile fp ∈ tr :=
  (parse_failure_isolated envParseFail pluginsId cfgBare (by decide) (by decide)
    (fun fp n acc => ⟨acc, rfl⟩) ⟨"", rfl⟩ ⟨[], rfl⟩).2.2

/-- C7: if the parse succeeds but the doc factory's `push` raises during
the node walk, the error is re-raised out of `_traverse` (after logging the
file and node), and the walk over the remaining files is aborted with that
error no matter how many files remain. -/
theorem extraction_error_fatal (env : Env) (includes excludes : List String)
    (sourceDirPath inDirPath : String) (packageName mainFilePath : Option String)
    (filePath : String) (ast : AST) (e : String) (tr : Trace)
    (hparse : env.parse filePath = Except.ok ast)
    (hpushErr : pushNodes env filePath (env.nodesOf ast) [] = (Except.error e, tr))
    (hinc : includeMatchLoop env (env.relative sourceDirPath filePath) includes = true)
    (hexc : excludeMatchLoop env (env.relative sourceDirPath filePath) excludes = false) :
    _traverse env inDirPath filePath packageName mainFilePath =
        (Except.error e, Event.parseFile filePath :: tr) ∧
      ∀ rest results asts,
        walkFold env includes excludes sourceDirPath inDirPath packageName mainFilePath
            (filePath :: rest) results asts =
          (Except.error e, Event.parseFile filePath :: tr) := by
  have ht : _traverse env inDirPath filePath packageName mainFilePath =
      (Except.error e, Event.parseFile filePath :: tr) := by
    simp [_traverse, hparse, hpushErr]
  refine ⟨ht, ?_⟩
  intro rest results asts
  simp [walkFold, processFile, hinc, hexc, ht]

/-- C7 witness: the theorem applied to the environment whose factory
throws on the single node of `a.js`. -/
theorem extraction_error_fatal_witness :
    _traverse envPushFail "./src" "a.js" none none =
        (Except.error "boom", Event.parseFile "a.js" :: [Event.logInvalidCode "a.js" 0]) ∧
      walkFold envPushFail ["\\.(js|es6)$"] ["\\.config\\.(js|es6)$"] "./src" "./src" none none
          ["a.js"] [] [] =
        (Except.error "boom", Event.parseFile "a.js" :: [Event.logInvalidCode "a.js" 0]) :=
  ⟨(extraction_error_fatal envPushFail ["\\.(js|es6)$"] ["\\.config\\.(js|es6)$"] "./src" "./src"
      none none "a.js" 0 "boom" [Event.logInvalidCode "a.js" 0] rfl rfl (by decide)
      (by decide)).1,
   (extraction_error_fatal envPushFail ["\\.(js|es6)$"] ["\\.config\\.(js|es6)$"] "./src" "./src"
      none none "a.js" 0 "boom" [Event.logInvalidCode "a.js" 0] rfl rfl (by decide)
      (by decide)).2 [] [] []⟩

/-- C8: when `source` or `destination` is absent, generate fails in the
asserts before any file-system access (the event trace is empty), and
`_setDefaultConfig` provides no default for either field. -/
theorem generate_requires_source_destination (env : Env) (plugins : Plugins)
    (config c : Config) :
    ((config.source = none ∨ config.destination = none) →
      generate env plugins config = (GenOutcome.assertFailed, [])) ∧
      (_setDefaultConfig c).source = c.source ∧
      (_setDefaultConfig c).destination = c.destination := by
  refine ⟨?_, rfl, rfl⟩
  rintro (h | h)
  · simp [generate, h, jsTruthyStr]
  · cases hs : jsTruthyStr config.source
    · simp [generate, hs]
    · simp [generate, hs, h, jsTruthyStr]

/-- C8 witness: the theorem applied to the config missing `source`. -/
theorem generate_requires_source_destination_witness :
    generate envTrivial pluginsId cfgNoSource = (GenOutcome.assertFailed, []) ∧
      (_setDefaultConfig cfgBare).source = cfgBare.source ∧
      (_setDefaultConfig cfgBare).destination = cfgBare.destination :=
  ⟨(generate_requires_source_destination envTrivial pluginsId cfgNoSource cfgBare).1
      (Or.inl rfl),
   (generate_requires_source_destination envTrivial pluginsId cfgNoSource cfgBare).2⟩

/-- C9: when a plugin's `onPublish` hook raises, `_publish` logs the error
and the process exits with the non-zero code 1. -/
theorem publish_error_exits_nonzero (env : Env) (plugins : Plugins) (config : Config)
    (e : String) (h : plugins.onPublish = Except.error e) :
    _publish env plugins config = (PublishOutcome.exitedNonZero 1, [Event.logError]) := by
  simp [_publish, h]

/-- C9 witness: the theorem applied to the plugin host whose publish hook
raises. -/
theorem publish_error_exits_nonzero_witness :
    _publish envTrivial pluginsFailPub cfgBare =
      (PublishOutcome.exitedNonZero 1, [Event.logError]) :=
  publish_error_exits_nonzero envTrivial pluginsFailPub cfgBare "render failed" rfl

/-- C2 counterexample: for a config without `includes`, the config value
passed to `onHandleConfig` still has `includes` absent, although the
normalizer would have filled the default — the hook runs BEFORE the
defaults are filled. -/
theorem onHandleConfig_before_defaults_cex :
    (configStage id cfgBare).map (fun p => p.1.includes) = some none ∧
      (_setDefaultConfig cfgBare).includes = some ["\\.(js|es6)$"] := ⟨rfl, rfl⟩

/-- C2 (amended): `onHandleConfig` is invoked BEFORE the Config Normalizer
fills the defaults: the hook receives the raw user config unchanged, the
defaults are applied to the hook's returned config, and only after that
are `includes`, `excludes`, `index` and `package` always populated. -/
theorem onHandleConfig_receives_raw_config (env : Env) (plugins : Plugins) (config : Config)
    (hs : jsTruthyStr config.source = true) (hd : jsTruthyStr config.destination = true) :
    configStage plugins.onHandleConfig config =
        some (config, _setDefaultConfig (plugins.onHandleConfig config)) ∧
      generate env plugins config =
        generateRest env plugins (_setDefaultConfig (plugins.onHandleConfig config)) ∧
      ((_setDefaultConfig (plugins.onHandleConfig config)).includes.isSome = true ∧
        (_setDefaultConfig (plugins.onHandleConfig config)).excludes.isSome = true ∧
        jsTruthyStr (_setDefaultConfig (plugins.onHandleConfig config)).index = true ∧
        jsTruthyStr (_setDefaultConfig (plugins.onHandleConfig config)).package = true) := by
  refine ⟨?_, ?_, setDefaultConfig_filled _⟩
  · simp [configStage, hs, hd]
  · simp [generate, hs, hd, normConfig]

/-- C2 witness for the amended claim: the concrete minimal config. -/
theorem onHandleConfig_receives_raw_config_witness :
    configStage pluginsId.onHandleConfig cfgBare =
        some (cfgBare, _setDefaultConfig (pluginsId.onHandleConfig cfgBare)) ∧
      generate envTrivial pluginsId cfgBare =
        generateRest envTrivial pluginsId (_setDefaultConfig (pluginsId.onHandleConfig cfgBare)) ∧
      ((_setDefaultConfig (pluginsId.onHandleConfig cfgBare)).includes.isSome = true ∧
        (_setDefaultConfig (pluginsId.onHandleConfig cfgBare)).excludes.isSome = true ∧
        jsTruthyStr (_setDefaultConfig (pluginsId.onHandleConfig cfgBare)).index = true ∧
        jsTruthyStr (_setDefaultConfig (pluginsId.onHandleConfig cfgBare)).package = true) :=
  onHandleConfig_receives_raw_config envTrivial pluginsId cfgBare (by decide) (by decide)

/-- C3 counterexample: with an unreadable index document, building the
index synthetic doc does NOT fail silently: the read error propagates out
of `_generateForIndex` instead of yielding a doc with empty content. -/
theorem generateForIndex_unreadable_cex :
    (_generateForIndex envUnreadable cfgIndexed).1 = Except.error "EACCES" := rfl

/-- C3 (amended): when the configured index document is unreadable,
`_generateForIndex` propagates the read error — there is no try/catch —
and the whole generation run fails with it; when the document is readable
the synthetic doc has kind `index`, `static = true`, `access = 'public'`
and the file's full text as content. -/
theorem generateForIndex_propagates_error (env : Env) (plugins : Plugins) (config : Config)
    (e s : String) :
    (env.readFile (config.index.getD "") = Except.error e →
      (_generateForIndex env config).1 = Except.error e) ∧
      (env.readFile (config.index.getD "") = Except.ok s →
        (_generateForIndex env config).1 = Except.ok (indexDocObject env config s)) ∧
      (jsTruthyStr config.source = true → jsTruthyStr config.destination = true →
        (∀ fp n acc, ∃ r, env.push fp n acc = Except.ok r) →
        env.readFile ((normConfig plugins config).index.getD "") = Except.error e →
        ∃ tr, generate env plugins config = (GenOutcome.fatal e, tr)) := by
  refine ⟨?_, ?_, ?_⟩
  · intro h
    simp [_generateForIndex, h]
  · intro h
    simp [_generateForIndex, indexDocObject, h]
  · intro hs hd hpush hre
    have hti := (setDefaultConfig_filled (plugins.onHandleConfig config)).2.2.1
    have hgen : generate env plugins config =
        generateRest env plugins (normConfig plugins config) := by
      simp [generate, hs, hd]
    rw [hgen]
    exact generateRest_fatal_index env plugins (normConfig plugins config) hpush hti e hre

/-- C3 witness for the amended claim: the unreadable-index environment
makes the whole run fail with the read error. -/
theorem generateForIndex_propagates_error_witness :
    ∃ tr, generate envUnreadable pluginsId cfgIndexed = (GenOutcome.fatal "EACCES", tr) :=
  (generateForIndex_propagates_error envUnreadable pluginsId cfgIndexed "EACCES" "").2.2
    (by decide) (by decide) (fun fp n acc => ⟨acc, rfl⟩) rfl

end ESDoc
